import Mathlib

/-!
Verification of the calculation core of the `ellty-second-round` repository:
the `Operator` value object, the `CalculationRoot` / `CalculationOperation`
entities, the `CalculationService` orchestration (cache-aside reads, cache
invalidation around transactional writes, tree reconstitution from cached
JSON), and the repository-side closure computation
`filterOperationsForRoot`.

JavaScript numbers are modelled by `JSNum`: a finite value carries an exact
rational (the idealisation of a non-overflowing IEEE-754 double), and the
special values `nan`, `posInf`, `negInf` are explicit constructors, so that
the `Number.isFinite` guard and the division-by-zero guard of the source
are expressible.  Signed zero and overflow-to-infinity are not modelled.
`Date` values are modelled as natural numbers (epoch milliseconds);
`crypto.randomUUID()` and `new Date()` are modelled by passing the fresh id
and the current time as explicit arguments to the factory functions.
-/

/-- Model of a JavaScript number: an exact rational for finite doubles,
plus the three non-finite values. -/
inductive JSNum where
  | fin : ℚ → JSNum
  | nan : JSNum
  | posInf : JSNum
  | negInf : JSNum
deriving DecidableEq, Repr

namespace JSNum

/-- `Number.isFinite`. -/
def isFinite : JSNum → Bool
  | fin _ => true
  | _ => false

/-- IEEE-754 negation (no signed zero). -/
def neg : JSNum → JSNum
  | fin a => fin (-a)
  | nan => nan
  | posInf => negInf
  | negInf => posInf

/-- JavaScript `+` on numbers (idealised: finite sums never overflow). -/
def add : JSNum → JSNum → JSNum
  | nan, _ => nan
  | _, nan => nan
  | fin a, fin b => fin (a + b)
  | posInf, negInf => nan
  | negInf, posInf => nan
  | posInf, _ => posInf
  | _, posInf => posInf
  | negInf, _ => negInf
  | _, negInf => negInf

/-- JavaScript `-` on numbers, as addition of the negation. -/
def sub (a b : JSNum) : JSNum := a.add b.neg

/-- JavaScript `*` on numbers (idealised: finite products never overflow). -/
def mul : JSNum → JSNum → JSNum
  | nan, _ => nan
  | _, nan => nan
  | fin a, fin b => fin (a * b)
  | posInf, posInf => posInf
  | posInf, negInf => negInf
  | negInf, posInf => negInf
  | negInf, negInf => posInf
  | posInf, fin b => if b = 0 then nan else if 0 < b then posInf else negInf
  | fin a, posInf => if a = 0 then nan else if 0 < a then posInf else negInf
  | negInf, fin b => if b = 0 then nan else if 0 < b then negInf else posInf
  | fin a, negInf => if a = 0 then nan else if 0 < a then negInf else posInf

/-- JavaScript `/` on numbers (no signed zero: division of a finite value
by zero follows the `+0` divisor case of IEEE-754). -/
def div : JSNum → JSNum → JSNum
  | nan, _ => nan
  | _, nan => nan
  | fin a, fin b =>
      if b = 0 then (if a = 0 then nan else if 0 < a then posInf else negInf)
      else fin (a / b)
  | posInf, fin b => if 0 ≤ b then posInf else negInf
  | negInf, fin b => if 0 ≤ b then negInf else posInf
  | fin _, posInf => fin 0
  | fin _, negInf => fin 0
  | posInf, posInf => nan
  | posInf, negInf => nan
  | negInf, posInf => nan
  | negInf, negInf => nan

end JSNum

/-- The distinct error conditions raised by the calculation core (each
corresponds to one `throw new Error(...)` site in the source). -/
inductive DomainError where
  /-- `Invalid operator: ...` from `Operator.create`. -/
  | invalidOperator (raw : String)
  /-- `Division by zero is not allowed` / `Invalid operation: division by zero`. -/
  | divisionByZero
  /-- `Operation must have a parent (root or operation)`. -/
  | missingParent
  /-- `Operation cannot have both root and operation parent`. -/
  | ambiguousParent
  /-- `Value must be a finite number` from `CalculationRoot.create`. -/
  | invalidValue
  /-- `Parent root not found: ...` from the service's `getParentValue`. -/
  | parentRootNotFound (id : String)
  /-- `Parent operation not found: ...` from the service's `getParentValue`. -/
  | parentOperationNotFound (id : String)
  /-- `Must specify parent root or operation` fallback in `getParentValue`. -/
  | mustSpecifyParent
  /-- Opaque failure propagated from the persistence collaborator. -/
  | persistenceFailure (message : String)
deriving DecidableEq, Repr

/-- The four operator variants (`OPERATORS` in `operator.ts`). -/
inductive OperatorType where
  | ADD
  | SUBTRACT
  | MULTIPLY
  | DIVIDE
deriving DecidableEq, Repr

/-- The `OPERATORS` array of canonical operator names. -/
def OPERATORS : List String := ["ADD", "SUBTRACT", "MULTIPLY", "DIVIDE"]

namespace OperatorType

/-- The variant named by a string, if any; models the
`value as OperatorType` cast that `Operator.create` performs after its
`OPERATORS.includes` check. -/
def ofName : String → Option OperatorType
  | "ADD" => some ADD
  | "SUBTRACT" => some SUBTRACT
  | "MULTIPLY" => some MULTIPLY
  | "DIVIDE" => some DIVIDE
  | _ => none

/-- `Operator.toString()`: the canonical name of the variant. -/
def name : OperatorType → String
  | ADD => "ADD"
  | SUBTRACT => "SUBTRACT"
  | MULTIPLY => "MULTIPLY"
  | DIVIDE => "DIVIDE"

/-- `Operator.calculate`: the `switch` over the variant; the `DIVIDE` arm
checks `right === 0` before dividing and throws in that case. -/
def calculate : OperatorType → JSNum → JSNum → Except DomainError JSNum
  | ADD, left, right => .ok (left.add right)
  | SUBTRACT, left, right => .ok (left.sub right)
  | MULTIPLY, left, right => .ok (left.mul right)
  | DIVIDE, left, right =>
      if right = JSNum.fin 0 then .error .divisionByZero
      else .ok (left.div right)

/-- `Operator.isValidWith`: false exactly for `DIVIDE` with operand `0`. -/
def isValidWith (op : OperatorType) (operand : JSNum) : Bool :=
  if op = DIVIDE ∧ operand = JSNum.fin 0 then false else true

end OperatorType

/-- `Operator.create`: succeeds when the string passes the
`OPERATORS.includes` check (rendered here by the partial name lookup),
fails with `InvalidOperator` otherwise. -/
def Operator.create (value : String) : Except DomainError OperatorType :=
  match OperatorType.ofName value with
  | some t => .ok t
  | none => .error (.invalidOperator value)

/-- JavaScript truthiness of an optional string: `undefined` and the empty
string are falsy, every other string is truthy.  This is the test performed
by `!input.parentRootId`, `input.parentRootId && ...` and the like. -/
def truthyStr : Option String → Bool
  | none => false
  | some s => !s.isEmpty

/-- `CalculationOperation`: a node of the calculation tree.  The private
`_children` list is the last argument; all other fields are read-only.
The entity stores the operator as its variant (`operator.toString()`
followed by `Operator.fromType` in the source round-trips the variant). -/
inductive CalculationOperation where
  | mk
    (id : String)
    (parentRootId : Option String)
    (parentOperationId : Option String)
    (operator : OperatorType)
    (operand : JSNum)
    (result : JSNum)
    (userId : String)
    (username : Option String)
    (createdAt : Nat)
    (updatedAt : Nat)
    (children : List CalculationOperation)
deriving Repr

namespace CalculationOperation

/-- Field accessor. -/
def id : CalculationOperation → String
  | .mk i _ _ _ _ _ _ _ _ _ _ => i

/-- Field accessor. -/
def parentRootId : CalculationOperation → Option String
  | .mk _ pr _ _ _ _ _ _ _ _ _ => pr

/-- Field accessor. -/
def parentOperationId : CalculationOperation → Option String
  | .mk _ _ po _ _ _ _ _ _ _ _ => po

/-- Field accessor. -/
def operator : CalculationOperation → OperatorType
  | .mk _ _ _ op _ _ _ _ _ _ _ => op

/-- Field accessor. -/
def operand : CalculationOperation → JSNum
  | .mk _ _ _ _ od _ _ _ _ _ _ => od

/-- Field accessor. -/
def result : CalculationOperation → JSNum
  | .mk _ _ _ _ _ r _ _ _ _ _ => r

/-- Field accessor. -/
def userId : CalculationOperation → String
  | .mk _ _ _ _ _ _ u _ _ _ _ => u

/-- Field accessor. -/
def username : CalculationOperation → Option String
  | .mk _ _ _ _ _ _ _ un _ _ _ => un

/-- Field accessor. -/
def createdAt : CalculationOperation → Nat
  | .mk _ _ _ _ _ _ _ _ c _ _ => c

/-- Field accessor. -/
def updatedAt : CalculationOperation → Nat
  | .mk _ _ _ _ _ _ _ _ _ ud _ => ud

/-- The `children` getter. -/
def children : CalculationOperation → List CalculationOperation
  | .mk _ _ _ _ _ _ _ _ _ _ ch => ch

/-- `setChildren`: bulk replacement of the children list. -/
def setChildren : CalculationOperation → List CalculationOperation → CalculationOperation
  | .mk i pr po op od r u un c ud _, ch => .mk i pr po op od r u un c ud ch

end CalculationOperation

/-- Input of `CalculationOperation.create` (the optional parent ids are
`string | undefined` in the source). -/
structure CreateCalculationOperationInput where
  parentRootId : Option String
  parentOperationId : Option String
  operator : OperatorType
  operand : JSNum
  parentValue : JSNum
  userId : String
  username : Option String

/-- `CalculationOperation.create`: validates parent cardinality with
JavaScript truthiness tests, validates the operator against the operand,
computes `result = operator.calculate(parentValue, operand)`, and builds
the entity with `parentRootId ?? null`, fresh id, `createdAt = updatedAt`
and an empty children list. -/
def CalculationOperation.create (input : CreateCalculationOperationInput)
    (newId : String) (now : Nat) : Except DomainError CalculationOperation :=
  if !truthyStr input.parentRootId && !truthyStr input.parentOperationId then
    .error .missingParent
  else if truthyStr input.parentRootId && truthyStr input.parentOperationId then
    .error .ambiguousParent
  else if !(input.operator.isValidWith input.operand) then
    .error .divisionByZero
  else
    (input.operator.calculate input.parentValue input.operand).map fun r =>
      .mk newId input.parentRootId input.parentOperationId input.operator
        input.operand r input.userId input.username now now []

/-- Scalar fields of a persisted `CalculationRoot` (`CalculationRootProps`). -/
structure CalculationRootProps where
  id : String
  value : JSNum
  userId : String
  username : Option String
  createdAt : Nat
  updatedAt : Nat

/-- `CalculationRoot`: the aggregate root.  `operations` is the private
`_operations` list, initially empty and replaced by `setOperations`. -/
structure CalculationRoot where
  id : String
  value : JSNum
  userId : String
  username : Option String
  createdAt : Nat
  updatedAt : Nat
  operations : List CalculationOperation
deriving Repr

/-- Input of `CalculationRoot.create`. -/
structure CreateCalculationRootInput where
  value : JSNum
  userId : String
  username : Option String

/-- `CalculationRoot.create`: rejects non-finite values with
`InvalidValue`, otherwise builds the root with a fresh id, identical
timestamps and no operations. -/
def CalculationRoot.create (input : CreateCalculationRootInput)
    (newId : String) (now : Nat) : Except DomainError CalculationRoot :=
  if !input.value.isFinite then
    .error .invalidValue
  else
    .ok ⟨newId, input.value, input.userId, input.username, now, now, []⟩

/-- `CalculationRoot.fromPersistence`: trusts the props, starts with an
empty operations list. -/
def CalculationRoot.fromPersistence (p : CalculationRootProps) : CalculationRoot :=
  ⟨p.id, p.value, p.userId, p.username, p.createdAt, p.updatedAt, []⟩

/-- `setOperations`: bulk replacement of the direct-children list. -/
def CalculationRoot.setOperations (r : CalculationRoot)
    (ops : List CalculationOperation) : CalculationRoot :=
  { r with operations := ops }

/-- The inner `countRecursive` helper of `getTotalOperationCount`:
`ops.reduce((sum, op) => sum + 1 + countRecursive(op.children), 0)`,
rendered as a structural recursion (`Nat` addition is associative and
commutative, so the fold order does not affect the value). -/
def countRecursive : List CalculationOperation → Nat
  | [] => 0
  | .mk _ _ _ _ _ _ _ _ _ _ ch :: rest => (1 + countRecursive ch) + countRecursive rest

/-- `CalculationRoot.getTotalOperationCount`. -/
def CalculationRoot.getTotalOperationCount (r : CalculationRoot) : Nat :=
  countRecursive r.operations

/-- The list of every node of a forest of operations, each listed exactly
once (the node itself followed by the nodes of its subtrees). -/
def allNodes : List CalculationOperation → List CalculationOperation
  | [] => []
  | op@(.mk _ _ _ _ _ _ _ _ _ _ ch) :: rest => op :: (allNodes ch ++ allNodes rest)

/-- The plain record produced by `CalculationOperation.toJSON` (the
`children` field is recursively serialized). -/
inductive OperationJSON where
  | mk
    (id : String)
    (parentRootId : Option String)
    (parentOperationId : Option String)
    (operator : OperatorType)
    (operand : JSNum)
    (result : JSNum)
    (userId : String)
    (username : Option String)
    (createdAt : Nat)
    (updatedAt : Nat)
    (children : List OperationJSON)
deriving Repr

mutual

/-- `CalculationOperation.toJSON`: copies every scalar field (the operator
via `toString()`) and recursively serializes the children. -/
def CalculationOperation.toJSON : CalculationOperation → OperationJSON
  | .mk i pr po op od r u un c ud ch =>
      .mk i pr po op od r u un c ud (toJSONList ch)

/-- `this._children.map((c) => c.toJSON())`. -/
def toJSONList : List CalculationOperation → List OperationJSON
  | [] => []
  | o :: rest => o.toJSON :: toJSONList rest

end

/-- The plain record produced by `CalculationRoot.toJSON`. -/
structure RootJSON where
  id : String
  value : JSNum
  userId : String
  username : Option String
  createdAt : Nat
  updatedAt : Nat
  operations : List OperationJSON

/-- `CalculationRoot.toJSON`. -/
def CalculationRoot.toJSON (r : CalculationRoot) : RootJSON :=
  ⟨r.id, r.value, r.userId, r.username, r.createdAt, r.updatedAt,
    toJSONList r.operations⟩

mutual

/-- `CalculationService.reconstituteOperation`: rebuilds the entity from
the plain record via `fromPersistence` (`new Date` on a `Date`-modelled
timestamp is the identity) and attaches the recursively reconstituted
children via `setChildren`. -/
def CalculationService.reconstituteOperation : OperationJSON → CalculationOperation
  | .mk i pr po op od r u un c ud ch =>
      CalculationOperation.setChildren
        (.mk i pr po op od r u un c ud [])
        (reconstituteOperationList ch)

/-- `data.children.map((child) => this.reconstituteOperation(child))`. -/
def reconstituteOperationList : List OperationJSON → List CalculationOperation
  | [] => []
  | d :: rest => CalculationService.reconstituteOperation d :: reconstituteOperationList rest

end

/-- `CalculationService.reconstituteTree`: rebuilds the root from its
scalar fields via `fromPersistence` and attaches the reconstituted
operations via `setOperations`. -/
def CalculationService.reconstituteTree (data : RootJSON) : CalculationRoot :=
  (CalculationRoot.fromPersistence
      ⟨data.id, data.value, data.userId, data.username, data.createdAt,
        data.updatedAt⟩).setOperations
    (reconstituteOperationList data.operations)

/-- `CalculationService.reconstituteTrees`. -/
def CalculationService.reconstituteTrees (data : List RootJSON) : List CalculationRoot :=
  data.map CalculationService.reconstituteTree

/-- A flat operation row as selected by the Drizzle repository (`operand`
and `result` are decimal strings in the row type). -/
structure OperationRow where
  id : String
  parentRootId : Option String
  parentOperationId : Option String
  operator : OperatorType
  operand : String
  result : String
  userId : String
  username : Option String
  createdAt : Nat
  updatedAt : Nat
deriving DecidableEq, Repr

/-- First pass of `filterOperationsForRoot`: add to the membership set the
id of every row whose `parentRootId` strictly equals the root id
(`Set.add` is idempotent, rendered by the `contains` guard). -/
def directPass (rootId : String) : List OperationRow → List String → List String
  | [], s => s
  | op :: rest, s =>
      directPass rootId rest
        (if op.parentRootId == some rootId && !(s.contains op.id) then s ++ [op.id] else s)

/-- One row of the expansion pass: if the row's `parentOperationId` is
truthy (non-null and non-empty) and already in the membership set, and the
row's own id is not, add the row's id. -/
def closureStep (op : OperationRow) (s : List String) : List String :=
  match op.parentOperationId with
  | some pid =>
      if !pid.isEmpty && s.contains pid && !(s.contains op.id) then s ++ [op.id] else s
  | none => s

/-- One full expansion pass (`for (const op of allOps)` inside the
`while` loop). -/
def closurePass : List OperationRow → List String → List String
  | [], s => s
  | op :: rest, s => closurePass rest (closureStep op s)

/-- The `while (foundNew)` loop: repeat the expansion pass until a pass
adds nothing (a pass only ever appends fresh ids, so `foundNew` is
equivalent to the length having grown).  The loop is run with enough fuel
to reach the fixed point; `closureLoop_fix` proves the fuel suffices. -/
def closureLoop (allOps : List OperationRow) : Nat → List String → List String
  | 0, s => s
  | fuel + 1, s =>
      let s2 := closurePass allOps s
      if s2.length = s.length then s else closureLoop allOps fuel s2

/-- `filterOperationsForRoot`: compute the membership closure, then keep
the rows whose id is in it. -/
def filterOperationsForRoot (rootId : String) (allOps : List OperationRow) :
    List OperationRow :=
  let belongsToRoot := closureLoop allOps (allOps.length + 1) (directPass rootId allOps [])
  allOps.filter (fun op => belongsToRoot.contains op.id)

/-- The specification's notion of reachability from a root: a row belongs
to the root when its `parentRootId` equals the root's id, or its
`parentOperationId` is the id of a row that belongs. -/
inductive BelongsToRoot (rootId : String) (allOps : List OperationRow) :
    OperationRow → Prop
  | direct (op : OperationRow) (hmem : op ∈ allOps)
      (hpr : op.parentRootId = some rootId) : BelongsToRoot rootId allOps op
  | viaParent (op p : OperationRow) (hmem : op ∈ allOps) (hp : p ∈ allOps)
      (hpo : op.parentOperationId = some p.id)
      (hb : BelongsToRoot rootId allOps p) : BelongsToRoot rootId allOps op

/-- The `CacheKeys.FULL_TREE` constant. -/
def FULL_TREE_KEY : String := "calc:tree:full"

/-- The `CacheKeys.ROOT_LIST` constant. -/
def ROOT_LIST_KEY : String := "calc:roots"

/-- `CacheKeys.ROOT(id)`. -/
def rootCacheKey (id : String) : String := "calc:root:" ++ id

/-- `CacheKeys.ROOT_OPERATIONS(rootId)`. -/
def rootOperationsCacheKey (rootId : String) : String := "calc:root:" ++ rootId ++ ":ops"

/-- `CacheKeys.OPERATION(id)`. -/
def operationCacheKey (id : String) : String := "calc:op:" ++ id

/-- `CacheKeys.OPERATION_CHILDREN(parentOpId)`. -/
def operationChildrenCacheKey (parentOpId : String) : String :=
  "calc:op:" ++ parentOpId ++ ":children"

/-- Observable interactions of the service with its collaborators, in
program order.  A cache `set` records whether the underlying write
succeeded (the service swallows the failure either way). -/
inductive ServiceEvent where
  | cacheGet (key : String)
  | cacheSet (key : String) (ok : Bool)
  | cacheDelete (key : String)
  | cacheDeleteMany (keys : List String)
  | repoFindAllRoots
  | repoSaveRoot (id : String)
deriving DecidableEq, Repr

/-- Environment of one `getFullTree` call: the value the cache returns for
`FULL_TREE`, the outcome of the persistence load, and whether the
fire-and-forget cache write would succeed. -/
structure GetFullTreeEnv where
  cachedFullTree : Option (List RootJSON)
  repoTrees : Except DomainError (List CalculationRoot)
  cacheSetOk : Bool

/-- `CalculationService.getFullTree`: on a cache hit, reconstitute and
return without touching persistence; on a miss, load from persistence and
issue the fire-and-forget cache write (`cacheTreesAsync`, whose failure is
swallowed by `.catch(() => {})` and can therefore not influence the
returned value). -/
def CalculationService.getFullTree (env : GetFullTreeEnv) :
    Except DomainError (List CalculationRoot) × List ServiceEvent :=
  match env.cachedFullTree with
  | some data =>
      (.ok (CalculationService.reconstituteTrees data), [.cacheGet FULL_TREE_KEY])
  | none =>
      match env.repoTrees with
      | .error e => (.error e, [.cacheGet FULL_TREE_KEY, .repoFindAllRoots])
      | .ok trees =>
          (.ok trees,
            [.cacheGet FULL_TREE_KEY, .repoFindAllRoots,
              .cacheSet FULL_TREE_KEY env.cacheSetOk])

/-- Environment of one `createRoot` call: the outcome `saveRoot` would
have inside the transaction, and whether the post-commit cache write
succeeds. -/
structure CreateRootEnv where
  saveOutcome : Except DomainError Unit
  cacheSetOk : Bool

/-- `CalculationService.createRoot`: delete `ROOT_LIST` and `FULL_TREE`
up front; inside the transaction build the entity (propagating
`InvalidValue`) and persist it; on success cache the new root and delete
`FULL_TREE` again; on any failure delete the same two keys again before
propagating the error. -/
def CalculationService.createRoot (input : CreateCalculationRootInput)
    (newId : String) (now : Nat) (env : CreateRootEnv) :
    Except DomainError CalculationRoot × List ServiceEvent :=
  let pre : List ServiceEvent := [.cacheDeleteMany [ROOT_LIST_KEY, FULL_TREE_KEY]]
  match CalculationRoot.create input newId now with
  | .error e =>
      (.error e, pre ++ [.cacheDeleteMany [ROOT_LIST_KEY, FULL_TREE_KEY]])
  | .ok root =>
      match env.saveOutcome with
      | .error e =>
          (.error e,
            pre ++ [.repoSaveRoot root.id,
              .cacheDeleteMany [ROOT_LIST_KEY, FULL_TREE_KEY]])
      | .ok _ =>
          (.ok root,
            pre ++ [.repoSaveRoot root.id,
              .cacheSet (rootCacheKey root.id) env.cacheSetOk,
              .cacheDelete FULL_TREE_KEY])

/-- The up-front parent-cardinality validation at the top of
`CalculationService.createOperation` (JavaScript truthiness tests on the
optional parent ids). -/
def serviceValidateParents (parentRootId parentOperationId : Option String) :
    Except DomainError Unit :=
  if !truthyStr parentRootId && !truthyStr parentOperationId then
    .error .missingParent
  else if truthyStr parentRootId && truthyStr parentOperationId then
    .error .ambiguousParent
  else
    .ok ()

/-- `CalculationService.getParentValue`: resolve the parent's current
value, consulting the root repository when `parentRootId` is truthy and
the operation repository when `parentOperationId` is truthy. -/
def CalculationService.getParentValue
    (findRootById : String → Option CalculationRoot)
    (findOperationById : String → Option CalculationOperation)
    (parentRootId parentOperationId : Option String) : Except DomainError JSNum :=
  if truthyStr parentRootId then
    match findRootById (parentRootId.getD "") with
    | none => .error (.parentRootNotFound (parentRootId.getD ""))
    | some root => .ok root.value
  else if truthyStr parentOperationId then
    match findOperationById (parentOperationId.getD "") with
    | none => .error (.parentOperationNotFound (parentOperationId.getD ""))
    | some op => .ok op.result
  else
    .error .mustSpecifyParent

/-- If the operator is valid with the operand, `calculate` cannot fail. -/
theorem calculate_ok_of_isValidWith (op : OperatorType) (pv operand : JSNum)
    (h : op.isValidWith operand = true) :
    ∃ v, op.calculate pv operand = .ok v := by
  cases op with
  | DIVIDE =>
      have hz : operand ≠ JSNum.fin 0 := by
        intro hc
        simp [OperatorType.isValidWith, hc] at h
      exact ⟨pv.div operand, by simp [OperatorType.calculate, hz]⟩
  | ADD => exact ⟨pv.add operand, rfl⟩
  | SUBTRACT => exact ⟨pv.sub operand, rfl⟩
  | MULTIPLY => exact ⟨pv.mul operand, rfl⟩

/-- C2: `Operator.calculate` returns the sum, difference and product for
`ADD`, `SUBTRACT` and `MULTIPLY`; for `DIVIDE` it returns the quotient
when the operand is non-zero and fails with the division-by-zero error
when the operand is zero, the zero test happening before the division, so
a division of finite values that succeeds yields a finite value, never an
infinity. -/
theorem operatorCalculate_spec (a b : JSNum) :
    OperatorType.ADD.calculate a b = .ok (a.add b) ∧
    OperatorType.SUBTRACT.calculate a b = .ok (a.sub b) ∧
    OperatorType.MULTIPLY.calculate a b = .ok (a.mul b) ∧
    (b ≠ JSNum.fin 0 → OperatorType.DIVIDE.calculate a b = .ok (a.div b)) ∧
    OperatorType.DIVIDE.calculate a (JSNum.fin 0) = .error .divisionByZero ∧
    (∀ r : JSNum, OperatorType.DIVIDE.calculate a b = .ok r →
      a.isFinite = true → b.isFinite = true → r.isFinite = true) := by
  refine ⟨rfl, rfl, rfl, ?_, by simp [OperatorType.calculate], ?_⟩
  · intro hb
    simp [OperatorType.calculate, hb]
  · intro r hr ha hb
    cases a with
    | fin qa =>
        cases b with
        | fin qb =>
            by_cases hz : qb = 0
            · subst hz
              simp [OperatorType.calculate] at hr
            · have hne : JSNum.fin qb ≠ JSNum.fin 0 := by
                simp [hz]
              simp [OperatorType.calculate, hne, JSNum.div, hz] at hr
              simp [← hr, JSNum.isFinite]
        | nan => simp [JSNum.isFinite] at hb
        | posInf => simp [JSNum.isFinite] at hb
        | negInf => simp [JSNum.isFinite] at hb
    | nan => simp [JSNum.isFinite] at ha
    | posInf => simp [JSNum.isFinite] at ha
    | negInf => simp [JSNum.isFinite] at ha

/-- Witness for C2 at concrete inputs: `100 / 4 = 25` through the theorem,
and the division-by-zero failure at `(10, 0)`. -/
theorem operatorCalculate_spec_witness :
    OperatorType.DIVIDE.calculate (JSNum.fin 100) (JSNum.fin 4) = .ok (JSNum.fin 25) ∧
    OperatorType.DIVIDE.calculate (JSNum.fin 10) (JSNum.fin 0) = .error .divisionByZero := by
  constructor
  · have h := (operatorCalculate_spec (JSNum.fin 100) (JSNum.fin 4)).2.2.2.1 (by decide)
    have hv : (JSNum.fin 100).div (JSNum.fin 4) = JSNum.fin 25 := by
      norm_num [JSNum.div]
    rw [h, hv]
  · exact (operatorCalculate_spec (JSNum.fin 10) (JSNum.fin 0)).2.2.2.2.1

/-- C7: `CalculationRoot.create` fails with `InvalidValue` exactly when
the value is not finite, and a successfully created root has equal
timestamps and a total operation count of zero. -/
theorem rootCreate_finite_spec (input : CreateCalculationRootInput)
    (newId : String) (now : Nat) :
    (CalculationRoot.create input newId now = .error .invalidValue ↔
      input.value.isFinite = false) ∧
    (∀ r, CalculationRoot.create input newId now = .ok r →
      r.createdAt = r.updatedAt ∧ r.getTotalOperationCount = 0) := by
  constructor
  · by_cases h : input.value.isFinite = true
    · simp [CalculationRoot.create, h]
    · simp only [Bool.not_eq_true] at h
      simp [CalculationRoot.create, h]
  · intro r hr
    by_cases h : input.value.isFinite = true
    · simp [CalculationRoot.create, h] at hr
      subst hr
      exact ⟨rfl, by simp [CalculationRoot.getTotalOperationCount, countRecursive]⟩
    · simp only [Bool.not_eq_true] at h
      simp [CalculationRoot.create, h] at hr

/-- Witness for C7: `NaN`, `Infinity` and `-Infinity` are rejected with
`InvalidValue`; value `0` succeeds with equal timestamps and zero
operations. -/
theorem rootCreate_finite_spec_witness :
    CalculationRoot.create ⟨JSNum.nan, "alice", none⟩ "r1" 7 = .error .invalidValue ∧
    CalculationRoot.create ⟨JSNum.posInf, "alice", none⟩ "r1" 7 = .error .invalidValue ∧
    CalculationRoot.create ⟨JSNum.negInf, "alice", none⟩ "r1" 7 = .error .invalidValue ∧
    (⟨"r1", JSNum.fin 0, "alice", none, 7, 7, []⟩ : CalculationRoot).createdAt =
      (⟨"r1", JSNum.fin 0, "alice", none, 7, 7, []⟩ : CalculationRoot).updatedAt ∧
    (⟨"r1", JSNum.fin 0, "alice", none, 7, 7, []⟩ : CalculationRoot).getTotalOperationCount = 0 := by
  refine ⟨(rootCreate_finite_spec ⟨JSNum.nan, "alice", none⟩ "r1" 7).1.mpr (by decide),
    (rootCreate_finite_spec ⟨JSNum.posInf, "alice", none⟩ "r1" 7).1.mpr (by decide),
    (rootCreate_finite_spec ⟨JSNum.negInf, "alice", none⟩ "r1" 7).1.mpr (by decide),
    ?_⟩
  exact (rootCreate_finite_spec ⟨JSNum.fin 0, "alice", none⟩ "r1" 7).2
    ⟨"r1", JSNum.fin 0, "alice", none, 7, 7, []⟩ rfl

/-- The partial name lookup succeeds exactly on the members of the
`OPERATORS` array. -/
theorem ofName_isSome_iff (s : String) :
    (OperatorType.ofName s).isSome = true ↔ s ∈ OPERATORS := by
  unfold OperatorType.ofName
  split <;> simp_all [OPERATORS]

/-- C8: `Operator.create` succeeds exactly on the four canonical names
(case-sensitive), and fails with `InvalidOperator` carrying the raw string
otherwise. -/
theorem operatorCreate_spec (s : String) :
    ((∃ t, Operator.create s = .ok t) ↔ s ∈ OPERATORS) ∧
    (s ∉ OPERATORS → Operator.create s = .error (.invalidOperator s)) := by
  constructor
  · constructor
    · rintro ⟨t, ht⟩
      rw [← ofName_isSome_iff]
      unfold Operator.create at ht
      cases h : OperatorType.ofName s with
      | none => rw [h] at ht; exact absurd ht (by simp)
      | some t' => simp [h]
    · intro hs
      rw [← ofName_isSome_iff] at hs
      cases h : OperatorType.ofName s with
      | none => rw [h] at hs; exact absurd hs (by simp)
      | some t' => exact ⟨t', by simp [Operator.create, h]⟩
  · intro hs
    unfold Operator.create
    cases h : OperatorType.ofName s with
    | none => simp
    | some t' =>
        exfalso
        have hsome : (OperatorType.ofName s).isSome = true := by simp [h]
        rw [ofName_isSome_iff] at hsome
        exact hs hsome

/-- Witness for C8: the lowercase string is rejected, not coerced, and the
canonical name is accepted. -/
theorem operatorCreate_spec_witness :
    Operator.create "multiply" = .error (.invalidOperator "multiply") ∧
    (∃ t, Operator.create "MULTIPLY" = .ok t) := by
  exact ⟨(operatorCreate_spec "multiply").2 (by decide),
    (operatorCreate_spec "MULTIPLY").1.mpr (by decide)⟩

/-- C1: `CalculationOperation.create` fails with `MissingParent` when
neither parent reference is given, with `AmbiguousParent` when both are,
with `DivisionByZero` when the operator is invalid with the operand, and
otherwise succeeds with `result = operator.calculate(parentValue, operand)`
and an empty children list ("given" is the JavaScript truthiness test the
source performs). -/
theorem operationCreate_spec (input : CreateCalculationOperationInput)
    (newId : String) (now : Nat) :
    (truthyStr input.parentRootId = false ∧ truthyStr input.parentOperationId = false →
      CalculationOperation.create input newId now = .error .missingParent) ∧
    (truthyStr input.parentRootId = true ∧ truthyStr input.parentOperationId = true →
      CalculationOperation.create input newId now = .error .ambiguousParent) ∧
    (truthyStr input.parentRootId ≠ truthyStr input.parentOperationId →
      (input.operator.isValidWith input.operand = false →
        CalculationOperation.create input newId now = .error .divisionByZero) ∧
      (input.operator.isValidWith input.operand = true →
        ∃ opn, CalculationOperation.create input newId now = .ok opn ∧
          input.operator.calculate input.parentValue input.operand = .ok opn.result ∧
          opn.children = [])) := by
  refine ⟨?_, ?_, ?_⟩
  · rintro ⟨h1, h2⟩
    simp [CalculationOperation.create, h1, h2]
  · rintro ⟨h1, h2⟩
    simp [CalculationOperation.create, h1, h2]
  · intro hne
    have hcases : (truthyStr input.parentRootId = true ∧
        truthyStr input.parentOperationId = false) ∨
        (truthyStr input.parentRootId = false ∧ truthyStr input.parentOperationId = true) := by
      cases hp : truthyStr input.parentRootId <;> cases ho : truthyStr input.parentOperationId <;>
        simp_all
    have step : ∀ hp ho, truthyStr input.parentRootId = hp → truthyStr input.parentOperationId = ho →
        hp ≠ ho →
        (input.operator.isValidWith input.operand = false →
          CalculationOperation.create input newId now = .error .divisionByZero) ∧
        (input.operator.isValidWith input.operand = true →
          ∃ opn, CalculationOperation.create input newId now = .ok opn ∧
            input.operator.calculate input.parentValue input.operand = .ok opn.result ∧
            opn.children = []) := by
      intro bp bo hp ho hdiff
      constructor
      · intro hv
        cases bp <;> cases bo <;> simp_all [CalculationOperation.create]
      · intro hv
        obtain ⟨v, hcalc⟩ :=
          calculate_ok_of_isValidWith input.operator input.parentValue input.operand hv
        refine ⟨.mk newId input.parentRootId input.parentOperationId input.operator
          input.operand v input.userId input.username now now [], ?_, ?_, rfl⟩
        · cases bp <;> cases bo <;>
            simp_all [CalculationOperation.create, Except.map]
        · simp [hcalc, CalculationOperation.result]
    rcases hcases with ⟨hp, ho⟩ | ⟨hp, ho⟩
    · exact step true false hp ho (by simp)
    · exact step false true hp ho (by simp)

/-- Witness for C1: parent value `100` with `ADD 50` yields result `150`
and empty children; parent value `150` with `MULTIPLY 2` yields `300`. -/
theorem operationCreate_spec_witness :
    (∃ opn, CalculationOperation.create
        ⟨some "root1", none, .ADD, JSNum.fin 50, JSNum.fin 100, "alice", none⟩ "op1" 5 =
          .ok opn ∧
      OperatorType.ADD.calculate (JSNum.fin 100) (JSNum.fin 50) = .ok opn.result ∧
      opn.children = []) ∧
    (∃ opn, CalculationOperation.create
        ⟨none, some "op1", .MULTIPLY, JSNum.fin 2, JSNum.fin 150, "alice", none⟩ "op2" 6 =
          .ok opn ∧
      OperatorType.MULTIPLY.calculate (JSNum.fin 150) (JSNum.fin 2) = .ok opn.result ∧
      opn.children = []) ∧
    OperatorType.ADD.calculate (JSNum.fin 100) (JSNum.fin 50) = .ok (JSNum.fin 150) ∧
    OperatorType.MULTIPLY.calculate (JSNum.fin 150) (JSNum.fin 2) = .ok (JSNum.fin 300) := by
  refine ⟨((operationCreate_spec
      ⟨some "root1", none, .ADD, JSNum.fin 50, JSNum.fin 100, "alice", none⟩ "op1" 5).2.2
        (by decide)).2 (by decide),
    ((operationCreate_spec
      ⟨none, some "op1", .MULTIPLY, JSNum.fin 2, JSNum.fin 150, "alice", none⟩ "op2" 6).2.2
        (by decide)).2 (by decide), ?_, ?_⟩
  · show Except.ok ((JSNum.fin 100).add (JSNum.fin 50)) = _
    norm_num [JSNum.add]
  · show Except.ok ((JSNum.fin 150).mul (JSNum.fin 2)) = _
    norm_num [JSNum.mul]

/-- The recursive count equals the number of nodes of the forest, each
node counted exactly once. -/
theorem countRecursive_eq_length_allNodes (l : List CalculationOperation) :
    countRecursive l = (allNodes l).length := by
  match l with
  | [] => simp [countRecursive, allNodes]
  | .mk i pr po op od r u un c ud ch :: rest =>
      have h1 := countRecursive_eq_length_allNodes ch
      have h2 := countRecursive_eq_length_allNodes rest
      simp [countRecursive, allNodes, h1, h2]
      omega

/-- The recursive count satisfies the per-direct-operation recurrence. -/
theorem countRecursive_eq_sum (l : List CalculationOperation) :
    countRecursive l = (l.map (fun op => 1 + countRecursive op.children)).sum := by
  induction l with
  | nil => simp [countRecursive]
  | cons op rest ih =>
      cases op with
      | mk i pr po oper od r u un c ud ch =>
          simp [countRecursive, CalculationOperation.children, ih]

/-- C9: `getTotalOperationCount` counts every descendant operation exactly
once: it equals the length of the flattened node list, equals the sum over
the direct operations of one plus the recursive count of their children,
and is zero for a root without operations. -/
theorem totalOperationCount_spec (r : CalculationRoot) :
    r.getTotalOperationCount = (allNodes r.operations).length ∧
    r.getTotalOperationCount =
      (r.operations.map (fun op => 1 + countRecursive op.children)).sum ∧
    (r.operations = [] → r.getTotalOperationCount = 0) := by
  refine ⟨countRecursive_eq_length_allNodes r.operations,
    countRecursive_eq_sum r.operations, ?_⟩
  intro h
  simp [CalculationRoot.getTotalOperationCount, h, countRecursive]

/-- Witness for C9 at a concrete two-node tree and at an empty root. -/
theorem totalOperationCount_spec_witness :
    (⟨"r", JSNum.fin 1, "u", none, 0, 0,
        [.mk "a" (some "r") none .ADD (JSNum.fin 1) (JSNum.fin 2) "u" none 0 0
          [.mk "b" none (some "a") .ADD (JSNum.fin 1) (JSNum.fin 3) "u" none 0 0 []]]⟩ :
      CalculationRoot).getTotalOperationCount =
      (allNodes [.mk "a" (some "r") none .ADD (JSNum.fin 1) (JSNum.fin 2) "u" none 0 0
        [.mk "b" none (some "a") .ADD (JSNum.fin 1) (JSNum.fin 3) "u" none 0 0 []]]).length ∧
    (⟨"r0", JSNum.fin 1, "u", none, 0, 0, []⟩ : CalculationRoot).getTotalOperationCount = 0 := by
  exact ⟨(totalOperationCount_spec _).1,
    (totalOperationCount_spec ⟨"r0", JSNum.fin 1, "u", none, 0, 0, []⟩).2.2 rfl⟩

mutual

/-- Reconstitution after serialization is the identity on operations. -/
theorem reconstituteOperation_toJSON (o : CalculationOperation) :
    CalculationService.reconstituteOperation o.toJSON = o := by
  match o with
  | .mk i pr po op od r u un c ud ch =>
      have h := reconstituteOperationList_toJSONList ch
      simp [CalculationOperation.toJSON, CalculationService.reconstituteOperation,
        CalculationOperation.setChildren, h]

/-- Reconstitution after serialization is the identity on operation lists. -/
theorem reconstituteOperationList_toJSONList (l : List CalculationOperation) :
    reconstituteOperationList (toJSONList l) = l := by
  match l with
  | [] => simp [toJSONList, reconstituteOperationList]
  | o :: rest =>
      have h1 := reconstituteOperation_toJSON o
      have h2 := reconstituteOperationList_toJSONList rest
      simp [toJSONList, reconstituteOperationList, h1, h2]

end

/-- C4: `CalculationService.reconstituteTree` applied to `root.toJSON()`
returns the root unchanged, including the recursive children structure of
every descendant operation. -/
theorem reconstituteTree_toJSON (root : CalculationRoot) :
    CalculationService.reconstituteTree root.toJSON = root := by
  cases root with
  | mk i v u un c ud ops =>
      simp [CalculationRoot.toJSON, CalculationService.reconstituteTree,
        CalculationRoot.fromPersistence, CalculationRoot.setOperations,
        reconstituteOperationList_toJSONList]

/-- C5: `getFullTree` returns the reconstituted cached trees and performs
no persistence call on a cache hit; only on a miss does it call
`findAllRootsWithOperations`, whose result it returns, and the
fire-and-forget cache write cannot change the returned value. -/
theorem getFullTree_cacheAside_spec (env : GetFullTreeEnv) :
    (∀ data, env.cachedFullTree = some data →
      (CalculationService.getFullTree env).1 =
        .ok (CalculationService.reconstituteTrees data) ∧
      ServiceEvent.repoFindAllRoots ∉ (CalculationService.getFullTree env).2) ∧
    (env.cachedFullTree = none →
      ServiceEvent.repoFindAllRoots ∈ (CalculationService.getFullTree env).2) ∧
    (∀ trees, env.cachedFullTree = none → env.repoTrees = .ok trees →
      (CalculationService.getFullTree env).1 = .ok trees) ∧
    (∀ b, (CalculationService.getFullTree { env with cacheSetOk := b }).1 =
      (CalculationService.getFullTree env).1) := by
  obtain ⟨cached, repo, setOk⟩ := env
  refine ⟨?_, ?_, ?_, ?_⟩
  · intro data hdata
    cases cached with
    | none => simp at hdata
    | some d =>
        cases hdata
        constructor
        · rfl
        · simp [CalculationService.getFullTree]
  · intro hnone
    cases cached with
    | some d => simp at hnone
    | none =>
        cases repo with
        | error e => simp [CalculationService.getFullTree]
        | ok trees => simp [CalculationService.getFullTree]
  · intro trees hnone hrepo
    cases cached with
    | some d => simp at hnone
    | none =>
        cases repo with
        | error e => simp at hrepo
        | ok t =>
            cases hrepo
            rfl
  · intro b
    cases cached with
    | some d => rfl
    | none => cases repo <;> rfl

/-- Witness for C5: a populated cache is served without a repository call,
and on a miss the repository result is returned unchanged. -/
theorem getFullTree_cacheAside_spec_witness :
    ((CalculationService.getFullTree ⟨some [], .ok [], true⟩).1 =
        .ok (CalculationService.reconstituteTrees []) ∧
      ServiceEvent.repoFindAllRoots ∉ (CalculationService.getFullTree ⟨some [], .ok [], true⟩).2) ∧
    ServiceEvent.repoFindAllRoots ∈ (CalculationService.getFullTree ⟨none, .ok [], true⟩).2 ∧
    (CalculationService.getFullTree ⟨none, .ok [], false⟩).1 = .ok [] := by
  exact ⟨(getFullTree_cacheAside_spec ⟨some [], .ok [], true⟩).1 [] rfl,
    (getFullTree_cacheAside_spec ⟨none, .ok [], true⟩).2.1 rfl,
    (getFullTree_cacheAside_spec ⟨none, .ok [], false⟩).2.2.1 [] rfl rfl⟩

/-- C6: `createRoot` deletes `ROOT_LIST` and `FULL_TREE` as its very first
collaborator interaction, before any persistence write; and whenever the
call fails (validation or persistence), its last interaction deletes the
same two keys again, so the deletion pair occurs at least twice. -/
theorem createRoot_invalidation_spec (input : CreateCalculationRootInput)
    (newId : String) (now : Nat) (env : CreateRootEnv) :
    (CalculationService.createRoot input newId now env).2.head? =
      some (.cacheDeleteMany [ROOT_LIST_KEY, FULL_TREE_KEY]) ∧
    (∀ e, (CalculationService.createRoot input newId now env).1 = .error e →
      (CalculationService.createRoot input newId now env).2.getLast? =
        some (.cacheDeleteMany [ROOT_LIST_KEY, FULL_TREE_KEY]) ∧
      2 ≤ (CalculationService.createRoot input newId now env).2.count
        (.cacheDeleteMany [ROOT_LIST_KEY, FULL_TREE_KEY])) := by
  cases hc : CalculationRoot.create input newId now with
  | error err =>
      constructor
      · simp [CalculationService.createRoot, hc]
      · intro e he
        constructor
        · simp [CalculationService.createRoot, hc]
        · simp [CalculationService.createRoot, hc, List.count_cons]
  | ok root =>
      cases hs : env.saveOutcome with
      | error err =>
          constructor
          · simp [CalculationService.createRoot, hc, hs]
          · intro e he
            constructor
            · simp [CalculationService.createRoot, hc, hs]
            · simp [CalculationService.createRoot, hc, hs, List.count_cons]
      | ok u =>
          constructor
          · simp [CalculationService.createRoot, hc, hs]
          · intro e he
            simp [CalculationService.createRoot, hc, hs] at he

/-- Witness for C6: a `NaN` input fails validation, and the trace both
starts and ends with the double-key deletion. -/
theorem createRoot_invalidation_spec_witness :
    (CalculationService.createRoot ⟨JSNum.nan, "alice", none⟩ "r1" 7
        ⟨.ok (), true⟩).2.getLast? =
      some (.cacheDeleteMany [ROOT_LIST_KEY, FULL_TREE_KEY]) ∧
    2 ≤ (CalculationService.createRoot ⟨JSNum.nan, "alice", none⟩ "r1" 7
        ⟨.ok (), true⟩).2.count (.cacheDeleteMany [ROOT_LIST_KEY, FULL_TREE_KEY]) := by
  exact (createRoot_invalidation_spec ⟨JSNum.nan, "alice", none⟩ "r1" 7 ⟨.ok (), true⟩).2
    .invalidValue rfl

/-- C10: both the service's up-front check and the entity factory treat an
empty-string parent id as absent: two empty parent ids fail with
`MissingParent`, not `AmbiguousParent`; an empty `parentRootId` together
with a non-empty `parentOperationId` passes validation, the factory
creates the operation, and parent resolution consults the operation
repository. -/
theorem emptyParentId_spec :
    serviceValidateParents (some "") (some "") = .error .missingParent ∧
    (∀ (input : CreateCalculationOperationInput) (newId : String) (now : Nat),
      input.parentRootId = some "" → input.parentOperationId = some "" →
      CalculationOperation.create input newId now = .error .missingParent) ∧
    (∀ po : String, po ≠ "" → serviceValidateParents (some "") (some po) = .ok ()) ∧
    (∀ (input : CreateCalculationOperationInput) (newId : String) (now : Nat) (po : String),
      input.parentRootId = some "" → input.parentOperationId = some po → po ≠ "" →
      input.operator.isValidWith input.operand = true →
      (∃ opn, CalculationOperation.create input newId now = .ok opn) ∧
      (∀ (findRootById : String → Option CalculationRoot)
          (findOperationById : String → Option CalculationOperation)
          (o : CalculationOperation), findOperationById po = some o →
        CalculationService.getParentValue findRootById findOperationById
          (some "") (some po) = .ok o.result)) := by
  refine ⟨rfl, ?_, ?_, ?_⟩
  · intro input newId now hpr hpo
    have hemp : "".isEmpty = true := rfl
    simp [CalculationOperation.create, hpr, hpo, truthyStr, hemp]
  · intro po hpo
    simp [serviceValidateParents, truthyStr, String.isEmpty_iff, hpo]
  · intro input newId now po hpr hpo hne hv
    constructor
    · obtain ⟨v, hcalc⟩ :=
        calculate_ok_of_isValidWith input.operator input.parentValue input.operand hv
      refine ⟨.mk newId input.parentRootId input.parentOperationId input.operator
        input.operand v input.userId input.username now now [], ?_⟩
      simp [CalculationOperation.create, hpr, hpo, truthyStr, String.isEmpty_iff,
        hne, hv, hcalc, Except.map]
    · intro findRootById findOperationById o ho
      have hemp : "".isEmpty = true := rfl
      simp [CalculationService.getParentValue, truthyStr, String.isEmpty_iff, hne, ho, hemp]

/-- Witness for C10 at concrete inputs: empty-and-empty fails with
`MissingParent` in the factory, and an empty root id with operation id
`"op9"` is created and resolved against the operation repository. -/
theorem emptyParentId_spec_witness :
    CalculationOperation.create
      ⟨some "", some "", .ADD, JSNum.fin 1, JSNum.fin 2, "alice", none⟩ "op1" 5 =
        .error .missingParent ∧
    (∃ opn, CalculationOperation.create
      ⟨some "", some "op9", .ADD, JSNum.fin 1, JSNum.fin 2, "alice", none⟩ "op1" 5 =
        .ok opn) ∧
    CalculationService.getParentValue (fun _ => none)
      (fun _ => some (.mk "op9" (some "r") none .ADD (JSNum.fin 1) (JSNum.fin 42)
        "bob" none 0 0 []))
      (some "") (some "op9") = .ok (JSNum.fin 42) := by
  refine ⟨emptyParentId_spec.2.1
      ⟨some "", some "", .ADD, JSNum.fin 1, JSNum.fin 2, "alice", none⟩ "op1" 5 rfl rfl,
    ?_, ?_⟩
  · exact (emptyParentId_spec.2.2.2
      ⟨some "", some "op9", .ADD, JSNum.fin 1, JSNum.fin 2, "alice", none⟩ "op1" 5 "op9"
      rfl rfl (by decide) (by decide)).1
  · exact (emptyParentId_spec.2.2.2
      ⟨some "", some "op9", .ADD, JSNum.fin 1, JSNum.fin 2, "alice", none⟩ "op1" 5 "op9"
      rfl rfl (by decide) (by decide)).2 (fun _ => none)
      (fun _ => some (.mk "op9" (some "r") none .ADD (JSNum.fin 1) (JSNum.fin 42)
        "bob" none 0 0 []))
      (.mk "op9" (some "r") none .ADD (JSNum.fin 1) (JSNum.fin 42) "bob" none 0 0 []) rfl

/-- `List.contains` on strings agrees with membership. -/
theorem strContains_iff (s : List String) (x : String) :
    s.contains x = true ↔ x ∈ s := by simp

/-- Appending a fresh element preserves `Nodup`. -/
theorem nodup_append_singleton (s : List String) (x : String)
    (hs : s.Nodup) (hx : x ∉ s) : (s ++ [x]).Nodup := by
  simp [List.nodup_append, hs, hx]

/-- The direct pass only grows the membership set. -/
theorem mem_directPass_of_mem (rid : String) :
    ∀ (l : List OperationRow) (s : List String) (x : String), x ∈ s →
      x ∈ directPass rid l s := by
  intro l
  induction l with
  | nil => intro s x hx; simpa [directPass] using hx
  | cons op rest ih =>
      intro s x hx
      simp only [directPass]
      apply ih
      split
      · exact List.mem_append_left _ hx
      · exact hx

/-- The direct pass records the id of every row directly under the root. -/
theorem id_mem_directPass (rid : String) (op : OperationRow)
    (hpr : op.parentRootId = some rid) :
    ∀ (l : List OperationRow) (s : List String), op ∈ l →
      op.id ∈ directPass rid l s := by
  intro l
  induction l with
  | nil => intro s h; cases h
  | cons hd rest ih =>
      intro s hmem
      simp only [directPass]
      rcases List.mem_cons.mp hmem with heq | hmm
      · subst heq
        apply mem_directPass_of_mem
        by_cases hc : s.contains op.id = true
        · split
          · exact List.mem_append_left _ ((strContains_iff s op.id).mp hc)
          · exact (strContains_iff s op.id).mp hc
        · have hnotmem : op.id ∉ s := by
            intro hm
            exact hc ((strContains_iff s op.id).mpr hm)
          have hcond : (op.parentRootId == some rid && !(s.contains op.id)) = true := by
            simp [hpr, hnotmem]
          rw [if_pos hcond]
          exact List.mem_append_right _ (by simp)
      · exact ih _ hmm

/-- Everything the direct pass adds is the id of a row of the list whose
`parentRootId` is the root id. -/
theorem mem_directPass_src (rid : String) :
    ∀ (l : List OperationRow) (s : List String) (x : String),
      x ∈ directPass rid l s →
      x ∈ s ∨ ∃ op, op ∈ l ∧ op.id = x ∧ op.parentRootId = some rid := by
  intro l
  induction l with
  | nil => intro s x hx; exact .inl (by simpa [directPass] using hx)
  | cons hd rest ih =>
      intro s x hx
      simp only [directPass] at hx
      rcases ih _ x hx with hin | ⟨op, hop, hid, hpr⟩
      · by_cases hc : (hd.parentRootId == some rid && !(s.contains hd.id)) = true
        · rw [if_pos hc] at hin
          rcases List.mem_append.mp hin with h1 | h2
          · exact .inl h1
          · have hx2 : x = hd.id := by simpa using h2
            have hpr : hd.parentRootId = some rid := by
              have h := ((Bool.and_eq_true _ _).mp hc).1
              simpa using h
            exact .inr ⟨hd, List.mem_cons_self _ _, hx2.symm, hpr⟩
        · rw [if_neg hc] at hin
          exact .inl hin
      · exact .inr ⟨op, List.mem_cons_of_mem _ hop, hid, hpr⟩

/-- The direct pass preserves `Nodup`. -/
theorem directPass_nodup (rid : String) :
    ∀ (l : List OperationRow) (s : List String), s.Nodup →
      (directPass rid l s).Nodup := by
  intro l
  induction l with
  | nil => intro s hs; simpa [directPass] using hs
  | cons hd rest ih =>
      intro s hs
      simp only [directPass]
      apply ih
      split
      · rename_i hc
        have hnc : s.contains hd.id = false := by
          have h := ((Bool.and_eq_true _ _).mp hc).2
          simpa using h
        refine nodup_append_singleton s hd.id hs ?_
        intro hmem
        rw [(strContains_iff s hd.id).mpr hmem] at hnc
        cases hnc
      · exact hs

/-- An expansion step either leaves the set unchanged or appends the id of
a row whose truthy `parentOperationId` is already in the set. -/
theorem closureStep_cases (op : OperationRow) (s : List String) :
    closureStep op s = s ∨
    (∃ pid, op.parentOperationId = some pid ∧ pid.isEmpty = false ∧ pid ∈ s ∧
      op.id ∉ s ∧ closureStep op s = s ++ [op.id]) := by
  unfold closureStep
  cases hpo : op.parentOperationId with
  | none => exact .inl rfl
  | some pid =>
      by_cases hc : (!pid.isEmpty && s.contains pid && !(s.contains op.id)) = true
      · right
        have hdecomp := (Bool.and_eq_true _ _).mp hc
        have h1 : pid.isEmpty = false := by
          have := ((Bool.and_eq_true _ _).mp hdecomp.1).1
          simpa using this
        have h2 : pid ∈ s := by
          have := ((Bool.and_eq_true _ _).mp hdecomp.1).2
          exact (strContains_iff s pid).mp this
        have h3 : op.id ∉ s := by
          intro hmem
          have := hdecomp.2
          rw [(strContains_iff s op.id).mpr hmem] at this
          simp at this
        exact ⟨pid, rfl, h1, h2, h3, by simp [hc]; exact ⟨h1, h2, h3⟩⟩
      · refine .inl ?_
        simp [hc]
        intro hpe hpid
        by_contra hno
        apply hc
        simp [hpe, hpid, hno]

/-- An expansion step only grows the membership set. -/
theorem mem_closureStep_of_mem (op : OperationRow) (s : List String)
    (x : String) (hx : x ∈ s) : x ∈ closureStep op s := by
  rcases closureStep_cases op s with h | ⟨pid, _, _, _, _, h⟩ <;> rw [h]
  · exact hx
  · exact List.mem_append_left _ hx

/-- An expansion step never shrinks the set. -/
theorem closureStep_length_ge (op : OperationRow) (s : List String) :
    s.length ≤ (closureStep op s).length := by
  rcases closureStep_cases op s with h | ⟨pid, _, _, _, _, h⟩ <;> simp [h]

/-- An expansion step preserves `Nodup`. -/
theorem closureStep_nodup (op : OperationRow) (s : List String)
    (hs : s.Nodup) : (closureStep op s).Nodup := by
  rcases closureStep_cases op s with h | ⟨pid, _, _, _, hnid, h⟩ <;> rw [h]
  · exact hs
  · exact nodup_append_singleton s op.id hs hnid

/-- Everything an expansion step adds is the id of the row, with the row's
parent id already in the set. -/
theorem mem_closureStep_src (op : OperationRow) (s : List String) (x : String)
    (hx : x ∈ closureStep op s) :
    x ∈ s ∨ (x = op.id ∧ ∃ pid, op.parentOperationId = some pid ∧ pid ∈ s) := by
  rcases closureStep_cases op s with h | ⟨pid, hpo, _, hpid, _, h⟩ <;> rw [h] at hx
  · exact .inl hx
  · rcases List.mem_append.mp hx with h1 | h2
    · exact .inl h1
    · exact .inr ⟨by simpa using h2, pid, hpo, hpid⟩

/-- If a step does not grow the set, the set already contains the row's id
whenever the row's truthy parent id is in it. -/
theorem closureStep_closed_of_no_growth (op : OperationRow) (s : List String)
    (h : (closureStep op s).length = s.length) :
    ∀ pid, op.parentOperationId = some pid → pid.isEmpty = false →
      pid ∈ s → op.id ∈ s := by
  intro pid hpo hpe hpid
  by_contra hnid
  have hguard : (!pid.isEmpty && s.contains pid && !(s.contains op.id)) = true := by
    simp [hpe, hpid, hnid]
  have hstep : closureStep op s = s ++ [op.id] := by
    unfold closureStep
    rw [hpo]
    simp [hguard]
    exact ⟨hpe, hpid, hnid⟩
  rw [hstep] at h
  simp at h

/-- A full expansion pass only grows the membership set. -/
theorem mem_closurePass_of_mem :
    ∀ (l : List OperationRow) (s : List String) (x : String), x ∈ s →
      x ∈ closurePass l s := by
  intro l
  induction l with
  | nil => intro s x hx; simpa [closurePass] using hx
  | cons op rest ih =>
      intro s x hx
      simp only [closurePass]
      exact ih _ x (mem_closureStep_of_mem op s x hx)

/-- A full expansion pass never shrinks the set. -/
theorem closurePass_length_ge :
    ∀ (l : List OperationRow) (s : List String),
      s.length ≤ (closurePass l s).length := by
  intro l
  induction l with
  | nil => intro s; simp [closurePass]
  | cons op rest ih =>
      intro s
      simp only [closurePass]
      exact le_trans (closureStep_length_ge op s) (ih _)

/-- A full expansion pass preserves `Nodup`. -/
theorem closurePass_nodup :
    ∀ (l : List OperationRow) (s : List String), s.Nodup →
      (closurePass l s).Nodup := by
  intro l
  induction l with
  | nil => intro s hs; simpa [closurePass] using hs
  | cons op rest ih =>
      intro s hs
      simp only [closurePass]
      exact ih _ (closureStep_nodup op s hs)

/-- Everything a full expansion pass adds is the id of a row of the list. -/
theorem mem_closurePass_src :
    ∀ (l : List OperationRow) (s : List String) (x : String),
      x ∈ closurePass l s → x ∈ s ∨ ∃ op, op ∈ l ∧ op.id = x := by
  intro l
  induction l with
  | nil => intro s x hx; exact .inl (by simpa [closurePass] using hx)
  | cons op rest ih =>
      intro s x hx
      simp only [closurePass] at hx
      rcases ih _ x hx with hin | ⟨q, hq, hid⟩
      · rcases mem_closureStep_src op s x hin with h1 | ⟨heq, _⟩
        · exact .inl h1
        · exact .inr ⟨op, List.mem_cons_self _ _, heq.symm⟩
      · exact .inr ⟨q, List.mem_cons_of_mem _ hq, hid⟩

/-- A full expansion pass preserves the invariant that every member of the
set is the id of a row of `allOps` that belongs to the root. -/
theorem closurePass_rep (rid : String) (allOps : List OperationRow) :
    ∀ (l : List OperationRow) (s : List String),
      (∀ op, op ∈ l → op ∈ allOps) →
      (∀ x, x ∈ s → ∃ p, p ∈ allOps ∧ p.id = x ∧ BelongsToRoot rid allOps p) →
      ∀ x, x ∈ closurePass l s →
        ∃ p, p ∈ allOps ∧ p.id = x ∧ BelongsToRoot rid allOps p := by
  intro l
  induction l with
  | nil => intro s _ hs x hx; exact hs x (by simpa [closurePass] using hx)
  | cons op rest ih =>
      intro s hl hs x hx
      simp only [closurePass] at hx
      refine ih _ (fun q hq => hl q (List.mem_cons_of_mem _ hq)) ?_ x hx
      intro y hy
      rcases mem_closureStep_src op s y hy with hin | ⟨rfl, pid, hpo, hpid⟩
      · exact hs y hin
      · obtain ⟨p, hp, hpid_eq, hb⟩ := hs pid hpid
        have hopmem : op ∈ allOps := hl op (List.mem_cons_self _ _)
        exact ⟨op, hopmem, rfl,
          BelongsToRoot.viaParent op p hopmem hp (by rw [hpo, hpid_eq]) hb⟩

/-- If a full pass does not grow the set, the set is closed under the
expansion rule for every row of the list. -/
theorem closurePass_fix_closed :
    ∀ (l : List OperationRow) (s : List String),
      (closurePass l s).length = s.length →
      ∀ op, op ∈ l → ∀ pid, op.parentOperationId = some pid →
        pid.isEmpty = false → pid ∈ s → op.id ∈ s := by
  intro l
  induction l with
  | nil => intro s _ op h; cases h
  | cons hd rest ih =>
      intro s hlen op hmem pid hpo hpe hpid
      have hstep : closureStep hd s = s := by
        rcases closureStep_cases hd s with h | ⟨pid', _, _, _, _, h⟩
        · exact h
        · exfalso
          have h1 : (closureStep hd s).length = s.length + 1 := by rw [h]; simp
          have h2 := closurePass_length_ge rest (closureStep hd s)
          simp only [closurePass] at hlen
          omega
      have hlen' : (closurePass rest s).length = s.length := by
        simp only [closurePass] at hlen
        rwa [hstep] at hlen
      rcases List.mem_cons.mp hmem with heq | hmm
      · subst heq
        exact closureStep_closed_of_no_growth op s (by rw [hstep]) pid hpo hpe hpid
      · exact ih s hlen' op hmm pid hpo hpe hpid

/-- The fixed-point loop only grows the membership set. -/
theorem mem_closureLoop_of_mem (allOps : List OperationRow) :
    ∀ (fuel : Nat) (s : List String) (x : String), x ∈ s →
      x ∈ closureLoop allOps fuel s := by
  intro fuel
  induction fuel with
  | zero => intro s x hx; simpa [closureLoop] using hx
  | succ n ih =>
      intro s x hx
      simp only [closureLoop]
      split
      · exact hx
      · exact ih _ x (mem_closurePass_of_mem allOps s x hx)

/-- The fixed-point loop preserves the belonging-representative
invariant. -/
theorem closureLoop_rep (rid : String) (allOps : List OperationRow) :
    ∀ (fuel : Nat) (s : List String),
      (∀ x, x ∈ s → ∃ p, p ∈ allOps ∧ p.id = x ∧ BelongsToRoot rid allOps p) →
      ∀ x, x ∈ closureLoop allOps fuel s →
        ∃ p, p ∈ allOps ∧ p.id = x ∧ BelongsToRoot rid allOps p := by
  intro fuel
  induction fuel with
  | zero => intro s hs x hx; exact hs x (by simpa [closureLoop] using hx)
  | succ n ih =>
      intro s hs x hx
      simp only [closureLoop] at hx
      split at hx
      · exact hs x hx
      · exact ih _ (closurePass_rep rid allOps allOps s (fun q hq => hq) hs) x hx

/-- With fuel `allOps.length + 1` (and in general with enough fuel
relative to the current set), the loop reaches an actual fixed point of
the expansion pass: the `while (foundNew)` loop of the source terminates
with this set. -/
theorem closureLoop_fix (allOps : List OperationRow) :
    ∀ (fuel : Nat) (s : List String), s.Nodup →
      (∀ x, x ∈ s → x ∈ allOps.map OperationRow.id) →
      allOps.length + 1 ≤ fuel + s.length →
      (closurePass allOps (closureLoop allOps fuel s)).length =
        (closureLoop allOps fuel s).length := by
  intro fuel
  induction fuel with
  | zero =>
      intro s hnd hsub hbound
      exfalso
      have hle : s.length ≤ (allOps.map OperationRow.id).length :=
        (hnd.subperm fun x hx => hsub x hx).length_le
      simp only [List.length_map] at hle
      omega
  | succ n ih =>
      intro s hnd hsub hbound
      simp only [closureLoop]
      split
      · rename_i hstop
        exact hstop
      · rename_i hgo
        have hge := closurePass_length_ge allOps s
        have hgrow : s.length + 1 ≤ (closurePass allOps s).length := by omega
        refine ih (closurePass allOps s) (closurePass_nodup allOps s hnd) ?_ (by omega)
        intro x hx
        rcases mem_closurePass_src allOps s x hx with hin | ⟨op, hop, hid⟩
        · exact hsub x hin
        · exact List.mem_map.mpr ⟨op, hop, hid⟩

/-- C3 (amended): for rows with pairwise-distinct ids none of whose parent
references is the empty string, the expansion loop reaches a fixed point
of the pass (so the source's `while` loop terminates there), and
`filterOperationsForRoot` returns exactly the rows reachable from the
root: a row is returned iff its `parentRootId` equals the root's id or its
`parentOperationId` is the id of a returned row, independently of row
order since the characterisation never mentions positions. -/
theorem filterOperationsForRoot_spec (rid : String) (allOps : List OperationRow)
    (hnd : (allOps.map OperationRow.id).Nodup)
    (hne : ∀ op, op ∈ allOps → op.parentOperationId ≠ some "") :
    (closurePass allOps
        (closureLoop allOps (allOps.length + 1) (directPass rid allOps []))).length =
      (closureLoop allOps (allOps.length + 1) (directPass rid allOps [])).length ∧
    ∀ q, q ∈ filterOperationsForRoot rid allOps ↔ BelongsToRoot rid allOps q := by
  have hs0nodup : (directPass rid allOps []).Nodup :=
    directPass_nodup rid allOps [] List.nodup_nil
  have hs0sub : ∀ x, x ∈ directPass rid allOps [] → x ∈ allOps.map OperationRow.id := by
    intro x hx
    rcases mem_directPass_src rid allOps [] x hx with h | ⟨op, hop, hid, _⟩
    · cases h
    · exact List.mem_map.mpr ⟨op, hop, hid⟩
  have hfix := closureLoop_fix allOps (allOps.length + 1) (directPass rid allOps [])
    hs0nodup hs0sub (by omega)
  refine ⟨hfix, ?_⟩
  have hclosed : ∀ op, op ∈ allOps → ∀ pid, op.parentOperationId = some pid →
      pid.isEmpty = false →
      pid ∈ closureLoop allOps (allOps.length + 1) (directPass rid allOps []) →
      op.id ∈ closureLoop allOps (allOps.length + 1) (directPass rid allOps []) :=
    closurePass_fix_closed allOps _ hfix
  have hcomplete : ∀ q, BelongsToRoot rid allOps q →
      q.id ∈ closureLoop allOps (allOps.length + 1) (directPass rid allOps []) := by
    intro q hq
    induction hq with
    | direct op hmem hpr =>
        exact mem_closureLoop_of_mem allOps _ _ op.id
          (id_mem_directPass rid op hpr allOps [] hmem)
    | viaParent op p hmem hp hpo hb ih =>
        have hne' : p.id ≠ "" := by
          intro h0
          exact hne op hmem (by rw [hpo, h0])
        have hpe : (p.id).isEmpty = false := by
          cases h : (p.id).isEmpty
          · rfl
          · exact absurd ((String.isEmpty_iff p.id).mp h) hne'
        exact hclosed op hmem p.id hpo hpe ih
  have hsound : ∀ x,
      x ∈ closureLoop allOps (allOps.length + 1) (directPass rid allOps []) →
      ∃ p, p ∈ allOps ∧ p.id = x ∧ BelongsToRoot rid allOps p := by
    apply closureLoop_rep
    intro x hx
    rcases mem_directPass_src rid allOps [] x hx with h | ⟨op, hop, hid, hpr⟩
    · cases h
    · exact ⟨op, hop, hid, BelongsToRoot.direct op hop hpr⟩
  intro q
  constructor
  · intro hq
    have hq' : q ∈ allOps ∧ ((closureLoop allOps (allOps.length + 1)
        (directPass rid allOps [])).contains q.id) = true := by
      simpa [filterOperationsForRoot, List.mem_filter] using hq
    obtain ⟨hqmem, hqc⟩ := hq'
    obtain ⟨p, hp, hpid, hb⟩ := hsound q.id ((strContains_iff _ q.id).mp hqc)
    have hpq : p = q := List.inj_on_of_nodup_map hnd hp hqmem hpid
    rwa [← hpq]
  · intro hb
    have hqmem : q ∈ allOps := by
      cases hb with
      | direct op hmem _ => exact hmem
      | viaParent op p hmem _ _ _ => exact hmem
    have hc : q.id ∈ closureLoop allOps (allOps.length + 1)
        (directPass rid allOps []) := hcomplete q hb
    simpa [filterOperationsForRoot, List.mem_filter] using ⟨hqmem, hc⟩

/-- Witness for C3 at a concrete row set: a chain root → "a" → "b" plus an
unreachable row "c"; the characterisation holds for the nested row "b". -/
theorem filterOperationsForRoot_spec_witness :
    (⟨"b", none, some "a", .ADD, "1", "3", "u", none, 0, 0⟩ : OperationRow) ∈
      filterOperationsForRoot "r"
        [⟨"a", some "r", none, .ADD, "1", "2", "u", none, 0, 0⟩,
         ⟨"b", none, some "a", .ADD, "1", "3", "u", none, 0, 0⟩,
         ⟨"c", none, some "zz", .ADD, "1", "4", "u", none, 0, 0⟩] ↔
    BelongsToRoot "r"
        [⟨"a", some "r", none, .ADD, "1", "2", "u", none, 0, 0⟩,
         ⟨"b", none, some "a", .ADD, "1", "3", "u", none, 0, 0⟩,
         ⟨"c", none, some "zz", .ADD, "1", "4", "u", none, 0, 0⟩]
        ⟨"b", none, some "a", .ADD, "1", "3", "u", none, 0, 0⟩ := by
  exact (filterOperationsForRoot_spec "r"
    [⟨"a", some "r", none, .ADD, "1", "2", "u", none, 0, 0⟩,
     ⟨"b", none, some "a", .ADD, "1", "3", "u", none, 0, 0⟩,
     ⟨"c", none, some "zz", .ADD, "1", "4", "u", none, 0, 0⟩]
    (by decide) (by decide)).2
    ⟨"b", none, some "a", .ADD, "1", "3", "u", none, 0, 0⟩

/-- Counterexample to C3 as literally stated: with two rows sharing the id
"x" (one a direct child of the root, one parentless), the parentless row
is returned by `filterOperationsForRoot` although it is not reachable from
the root, so the claim fails without a distinct-ids hypothesis. -/
theorem filterOperationsForRoot_dup_id_counterexample :
    (⟨"x", none, none, .ADD, "1", "1", "u", none, 0, 0⟩ : OperationRow) ∈
      filterOperationsForRoot "r"
        [⟨"x", some "r", none, .ADD, "1", "1", "u", none, 0, 0⟩,
         ⟨"x", none, none, .ADD, "1", "1", "u", none, 0, 0⟩] ∧
    ¬ BelongsToRoot "r"
        [⟨"x", some "r", none, .ADD, "1", "1", "u", none, 0, 0⟩,
         ⟨"x", none, none, .ADD, "1", "1", "u", none, 0, 0⟩]
        ⟨"x", none, none, .ADD, "1", "1", "u", none, 0, 0⟩ := by
  constructor
  · decide
  · intro hb
    cases hb with
    | direct op hmem hpr => simp [OperationRow.mk.injEq] at hpr
    | viaParent op p hmem hp hpo hb => simp at hpo
